import Mathlib

/-!
Verification of the CAN-bus signal translator (`code.py`).

The shallow embedding below translates the pure computational core of the
program: the bit-field codec (`extract_signal`, `inject_signal`), the scaling
helper (`apply_scale_and_offset`), and the two translation pipelines
(`process_can_message` and `translate_and_send`).  Byte buffers (Python
`bytes`/`bytearray`) are `List Nat` whose entries are byte values; Python's
arbitrary-precision integers are `Int`/`Nat`; Python float arithmetic on
factor/offset values is modelled exactly over `ℚ` (the claims settled through
it are evaluated only at inputs where the float and rational results
coincide); Python exceptions (`ValueError`, `OverflowError`,
`ZeroDivisionError`) are `Except` errors.  Bus I/O, logging and the outer
polling loop are out of scope, as is loading the JSON databases: an in-memory
database is an association list that preserves Python's dict insertion order.
-/

namespace CanBus

/-- Byte order of a signal: "Motorola" (big-endian) or "Intel" (little-endian). -/
inductive ByteOrder where
  | motorola
  | intel
deriving DecidableEq, Repr

/-- The exceptions the codec can raise.  `insufficientData` is the
`ValueError` raised by the explicit length guards of `extract_signal` ("Not
enough data ...") and `inject_signal` ("Not enough space ...");
`valueOverflow` is the `OverflowError` raised by `int.to_bytes` when the
value does not fit the requested byte count (including negative values);
`negativeShift` is the `ValueError` raised by `1 << (length - 1)` when
`length` is `0`. -/
inductive CodecError where
  | insufficientData
  | valueOverflow
  | negativeShift
deriving DecidableEq, Repr

/-- Embedding of `int.from_bytes(bs, byteorder="little")`: byte 0 is least significant. -/
def fromBytesLE : List Nat → Nat
  | [] => 0
  | b :: bs => b + 256 * fromBytesLE bs

/-- Embedding of `int.from_bytes(bs, byteorder="big")`: first byte is most significant,
i.e. the little-endian value of the reversed list. -/
def fromBytesBE (l : List Nat) : Nat :=
  fromBytesLE l.reverse

/-- Embedding of `v.to_bytes(n, byteorder="little")` for `0 ≤ v < 2^(8*n)` (the caller
guards the out-of-range case, where Python raises `OverflowError`). -/
def toBytesLE : Nat → Nat → List Nat
  | 0, _ => []
  | n + 1, v => v % 256 :: toBytesLE n (v / 256)

/-- Embedding of `v.to_bytes(n, byteorder="big")`: the reverse of the little-endian bytes. -/
def toBytesBE (n v : Nat) : List Nat :=
  (toBytesLE n v).reverse

/-- Shallow embedding of `extract_signal(data, start_bit, length, byte_order,
is_signed)`: slice the covering bytes, reverse them for Motorola, read them
as an integer (big-endian for Motorola, little-endian for Intel), shift right
by `start_bit % 8`, mask to `length` bits, and sign-extend if requested.
Python's truthiness test `extracted_value & (1 << (length - 1))` is the
`≠ 0` comparison; when `is_signed` and `length = 0` that shift raises
(`negativeShift`). -/
def extract_signal (data : List Nat) (start_bit length : Nat)
    (byte_order : ByteOrder) (is_signed : Bool) : Except CodecError Int :=
  let num_bits := start_bit + length
  let num_bytes := (num_bits + 7) / 8
  if data.length < num_bytes then
    .error .insufficientData
  else
    let byte_start := start_bit / 8
    let byte_end := (start_bit + length - 1) / 8
    let extracted_bytes := (data.drop byte_start).take (byte_end + 1 - byte_start)
    let raw : Nat :=
      match byte_order with
      | .motorola => fromBytesBE extracted_bytes.reverse
      | .intel => fromBytesLE extracted_bytes
    let bit_start := start_bit % 8
    let mask := (1 <<< length) - 1
    let extracted_value := (raw >>> bit_start) &&& mask
    if is_signed then
      if length = 0 then .error .negativeShift
      else if extracted_value &&& (1 <<< (length - 1)) ≠ 0 then
        .ok ((extracted_value : Int) - ((1 <<< length : Nat) : Int))
      else .ok (extracted_value : Int)
    else .ok (extracted_value : Int)

/-- One iteration of the byte-write loop of `inject_signal` (loop variable
`i`, current value byte `vb`).  `n` is `len(value_bytes)`.  Python's `~mask`
combined with a byte value keeps exactly the byte's bits outside `mask`; on
byte values it equals masking with `0xFF ^^^ mask`, which is how it is
written here. -/
def injectStep (byte_start bit_start length n : Nat) (data : List Nat)
    (i vb : Nat) : List Nat :=
  let shift := if i = 0 then bit_start else 0
  let mask0 := if i = 0 then 0xFF >>> shift else 0xFF
  let mask := if i = n - 1 then mask0 &&& (0xFF >>> (8 - (length - (n - 1) * 8))) else mask0
  data.set (byte_start + i)
    ((data.getD (byte_start + i) 0 &&& (0xFF ^^^ mask)) ||| ((vb >>> shift) &&& mask))

/-- The byte-write loop of `inject_signal`: `for i in range(len(value_bytes))`. -/
def injectLoop (byte_start bit_start length n : Nat) :
    List Nat → Nat → List Nat → List Nat
  | data, _, [] => data
  | data, i, vb :: rest =>
      injectLoop byte_start bit_start length n
        (injectStep byte_start bit_start length n data i vb) (i + 1) rest

/-- Shallow embedding of `inject_signal(output_data, value, start_bit,
length, byte_order)`.  `byte_end` uses Python's floor division over ℤ: for
`length = 0` with byte-aligned `start_bit` it lies one below `byte_start`,
the field spans `n = 0` bytes, and `to_bytes(0, ...)` accepts only the value
0.  The range test placed before `value_bytes` models `int.to_bytes` raising
`OverflowError` for values (negative or too large) that do not fit `n`
bytes; for in-range values the Motorola branch builds the big-endian bytes
and reverses them, the Intel branch builds the little-endian bytes directly,
and the write loop merges them into the buffer. -/
def inject_signal (output_data : List Nat) (value : Int) (start_bit length : Nat)
    (byte_order : ByteOrder) : Except CodecError (List Nat) :=
  let num_bits := start_bit + length
  let num_bytes := (num_bits + 7) / 8
  if output_data.length < num_bytes then
    .error .insufficientData
  else
    let byte_start := start_bit / 8
    let byte_end : Int := ((start_bit : Int) + (length : Int) - 1).fdiv 8
    let n := (byte_end - (byte_start : Int) + 1).toNat
    if value < 0 ∨ ((2 : Int) ^ (8 * n)) ≤ value then
      .error .valueOverflow
    else
      let value_bytes :=
        match byte_order with
        | .motorola => (toBytesBE n value.toNat).reverse
        | .intel => toBytesLE n value.toNat
      .ok (injectLoop byte_start (start_bit % 8) length n output_data 0 value_bytes)

/-- Embedding of `apply_scale_and_offset(value, factor, offset)`. -/
def apply_scale_and_offset (value factor offset : ℚ) : ℚ :=
  value * factor + offset

/-- Python `int(q)`: truncation toward zero (t-division of numerator by
denominator). -/
def pyInt (q : ℚ) : Int :=
  q.num.tdiv (q.den : Int)

/-- A signal entry of the JSON layout table.  The JSON defaults
(`factor = 1`, `offset = 0`, `byte_order = "Motorola"`, `is_signed = false`,
applied by the `.get(...)` accesses in the code) are applied when the record
is built, so every field is present here. -/
structure SignalDef where
  start_bit : Nat
  length : Nat
  byte_order : ByteOrder
  is_signed : Bool
  factor : ℚ
  offset : ℚ
deriving DecidableEq, Repr

/-- A message entry of the JSON layout table: frame id and the
insertion-ordered mapping from signal name to signal definition. -/
structure MessageDef where
  id : Nat
  signals : List (String × SignalDef)
deriving DecidableEq, Repr

/-- A database as `translate_and_send` consumes it: dict keyed by message
name, in insertion order. -/
abbrev Database := List (String × MessageDef)

/-- Dict lookup `input_dbc[can_id]` as `process_can_message` uses it
(database keyed by numeric id): the binding of the first matching key. -/
def lookupById : List (Nat × MessageDef) → Nat → Option MessageDef
  | [], _ => none
  | (k, m) :: rest, i => if k = i then some m else lookupById rest i

/-- Dict membership/lookup `signals[name]` / `signals.get(name)`. -/
def lookupSignal : List (String × SignalDef) → String → Option SignalDef
  | [], _ => none
  | (k, s) :: rest, nm => if k = nm then some s else lookupSignal rest nm

/-- The mutable state of one `process_can_message` call: the output buffer
and the `output_message` variable (`None` until some signal is injected). -/
structure PState where
  output_data : List Nat
  output_message : Option Nat
deriving Repr

/-- Inner loop of `process_can_message` over the whole output database for
one extracted signal.  There is no `break`: every output message containing
the signal is injected and `output_message` ends at the last one.  A raised
exception (`ZeroDivisionError` from the factor division or an error from
`inject_signal`) propagates to the per-signal `except` handler, so it aborts
the remaining output messages while keeping the state mutated so far. -/
def injectOutputs (extracted : Int) (signal_name : String) :
    Database → PState → PState
  | [], st => st
  | (_, out_cfg) :: rest, st =>
    match lookupSignal out_cfg.signals signal_name with
    | none => injectOutputs extracted signal_name rest st
    | some out_signal =>
      if out_signal.factor = 0 then st
      else
        let value := pyInt (((extracted : ℚ) - out_signal.offset) / out_signal.factor)
        match inject_signal st.output_data value out_signal.start_bit
            out_signal.length out_signal.byte_order with
        | .error _ => st
        | .ok d => injectOutputs extracted signal_name rest ⟨d, some out_cfg.id⟩

/-- Body of the per-signal `try`/`except` block of `process_can_message`:
a failed extraction leaves the state unchanged (`continue`). -/
def processSignal (output_dbc : Database) (data : List Nat) (st : PState)
    (sig : String × SignalDef) : PState :=
  match extract_signal data sig.2.start_bit sig.2.length sig.2.byte_order sig.2.is_signed with
  | .error _ => st
  | .ok extracted_value => injectOutputs extracted_value sig.1 output_dbc st

/-- The per-signal loop of `process_can_message`, in dict insertion order. -/
def processSignals (output_dbc : Database) (data : List Nat) :
    PState → List (String × SignalDef) → PState
  | st, [] => st
  | st, sig :: rest => processSignals output_dbc data (processSignal output_dbc data st sig) rest

/-- Shallow embedding of `process_can_message(can_id, data, input_dbc,
output_dbc)`: returns `(output_message, output_data)` when some signal was
injected, `none` otherwise.  The output buffer starts as `bytearray(8)`. -/
def process_can_message (can_id : Nat) (data : List Nat)
    (input_dbc : List (Nat × MessageDef)) (output_dbc : Database) :
    Option (Nat × List Nat) :=
  match lookupById input_dbc can_id with
  | none => none
  | some input_message =>
    let st := processSignals output_dbc data ⟨List.replicate 8 0, none⟩ input_message.signals
    match st.output_message with
    | none => none
    | some mid => some (mid, st.output_data)

/-- First config in `input_db` whose `"id"` equals the frame id (the lookup
loop at the top of `translate_and_send`). -/
def findInputConfig : Database → Nat → Option MessageDef
  | [], _ => none
  | (_, config) :: rest, mid =>
      if config.id = mid then some config else findInputConfig rest mid

/-- First config in `output_db` whose signal dict contains `nm` (the inner
lookup loop of `translate_and_send`, which does `break` on the first hit). -/
def findOutputBySignal : Database → String → Option MessageDef
  | [], _ => none
  | (_, config) :: rest, nm =>
      if (lookupSignal config.signals nm).isSome then some config
      else findOutputBySignal rest nm

/-- The OR-injection loop of `translate_and_send`:
`for i in range(num_bytes): translated_data[i + byte_start] |= (packed_value >> (i * 8)) & 0xFF`,
guarded by `i + byte_start < len(translated_data)`.  First argument of the
recursion is the current `i`, second the remaining iteration count. -/
def orInto (byte_start packed_value : Nat) : Nat → Nat → List Nat → List Nat
  | _, 0, td => td
  | i, rem + 1, td =>
    let td1 :=
      if i + byte_start < td.length then
        td.set (i + byte_start)
          (td.getD (i + byte_start) 0 ||| ((packed_value >>> (i * 8)) &&& 0xFF))
      else td
    orInto byte_start packed_value (i + 1) rem td1

/-- Body of the per-signal loop of `translate_and_send`: find the first
output message containing the signal (else `continue`), extract the raw
value with the input layout (an exception hits the `except` handler and
leaves the buffer unchanged), scale it, and OR `int(scaled_value) & mask`
shifted by `start_bit % 8` into the buffer at the output signal's position.
`int(scaled_value) & mask` with `mask = (1 << length) - 1` on a
(possibly negative) Python int is its value modulo `2 ^ length`. -/
def tasSignalStep (output_db : Database) (frame_data : List Nat)
    (td : List Nat) (sig : String × SignalDef) : List Nat :=
  match findOutputBySignal output_db sig.1 with
  | none => td
  | some output_message_config =>
    match lookupSignal output_message_config.signals sig.1 with
    | none => td
    | some output_signal =>
      match extract_signal frame_data sig.2.start_bit sig.2.length
          sig.2.byte_order sig.2.is_signed with
      | .error _ => td
      | .ok raw_value =>
        let scaled_value := apply_scale_and_offset (raw_value : ℚ) sig.2.factor sig.2.offset
        let byte_start := output_signal.start_bit / 8
        let bit_start := output_signal.start_bit % 8
        let bit_end := bit_start + output_signal.length
        let num_bytes := (bit_end + 7) / 8
        let packed_value := (pyInt scaled_value % ((2 : Int) ^ output_signal.length)).toNat <<< bit_start
        orInto byte_start packed_value 0 num_bytes td

/-- The output-id determination loop at the end of `translate_and_send`:
first output config containing at least one of the input message's signal
names, returning its id. -/
def findOutputByAny (sigs : List (String × SignalDef)) : Database → Option Nat
  | [] => none
  | (_, config) :: rest =>
    if sigs.any (fun p => (lookupSignal config.signals p.1).isSome) then some config.id
    else findOutputByAny sigs rest

/-- Shallow embedding of `translate_and_send(message, bus, input_db,
output_db, can_out)`: returns the `(id, data)` of the message handed to
`can_out.send`, or `none` when nothing is sent.  `translated_data` starts as
`bytearray(8)` and the sent payload is `translated_data[:8]`.  Python tests
the found id with falsy `if not translated_id:`, so an output id of `0` is
treated like "not found" and nothing is sent. -/
def translate_and_send (mid : Nat) (mdata : List Nat)
    (input_db output_db : Database) : Option (Nat × List Nat) :=
  match findInputConfig input_db mid with
  | none => none
  | some input_message_config =>
    let translated_data :=
      input_message_config.signals.foldl (tasSignalStep output_db mdata) (List.replicate 8 0)
    match findOutputByAny input_message_config.signals output_db with
    | none => none
    | some translated_id =>
      if translated_id = 0 then none
      else some (translated_id, translated_data.take 8)

/-- Bit `k` of a byte buffer under the code's little-endian ("Intel") bit
numbering: bit 0 is the least-significant bit of byte 0. -/
def getBit (data : List Nat) (k : Nat) : Bool :=
  (data.getD (k / 8) 0).testBit (k % 8)

/-- Modelled from the spec: the "minimum byte count covering all signals" of
a message ("MessageDefinition: ... optional explicit byte length (defaults to
the minimum byte count covering all signals)").  The code has no such
notion — it always allocates 8 bytes — so this definition follows the spec's
words, for comparison. -/
def specMinCoverBytes (m : MessageDef) : Nat :=
  (m.signals.map (fun p => (p.2.start_bit + p.2.length + 7) / 8)).foldr max 0

/-- Setting one list index leaves `getD` at every other index unchanged. -/
theorem getD_set_ne (l : List Nat) (p m b : Nat) (h : p ≠ m) :
    (l.set p b).getD m 0 = l.getD m 0 := by
  simp [List.getD_eq_getElem?_getD, List.getElem?_set_ne h]

/-- Setting an in-range list index makes `getD` there return the new value. -/
theorem getD_set_self (l : List Nat) (p b : Nat) (hp : p < l.length) :
    (l.set p b).getD p 0 = b := by
  simp [List.getD_eq_getElem?_getD, List.getElem?_set_self, hp]

/-- The one-byte slice `data[k : k+1]` is the singleton of byte `k`. -/
theorem drop_take_one (l : List Nat) (k : Nat) (hk : k < l.length) :
    (l.drop k).take 1 = [l.getD k 0] := by
  rw [← List.getElem_cons_drop l k hk, List.take_succ_cons, List.take_zero,
    List.getD_eq_getElem?_getD, List.getElem?_eq_getElem hk]
  rfl

/-- The byte list built by `toBytesLE n v` has exactly `n` entries. -/
theorem toBytesLE_length (n : Nat) : ∀ v : Nat, (toBytesLE n v).length = n := by
  induction n with
  | zero => intro v; rfl
  | succ m ih => intro v; simp [toBytesLE, ih]

/-- Bits of the byte mask `0xFF`. -/
theorem testBit_255 (x : Nat) : Nat.testBit 255 x = decide (x < 8) := by
  have h : (255 : Nat) = 2 ^ 8 - 1 := by decide
  rw [h, Nat.testBit_two_pow_sub_one]

/-- In the last byte written by a byte-aligned injection of an `n`-byte
field, the bits at positions `≥ length - 8*(n-1)` (beyond the field's tail)
come from the old byte. -/
theorem lastByte_testBit (old vb length n s : Nat) (hs8 : s < 8)
    (hrs : length - (n - 1) * 8 ≤ s) :
    Nat.testBit ((old &&& (255 ^^^ (255 &&& (255 >>> (8 - (length - (n - 1) * 8)))))) |||
      (vb &&& (255 &&& (255 >>> (8 - (length - (n - 1) * 8)))))) s = Nat.testBit old s := by
  simp only [Nat.testBit_lor, Nat.testBit_land, Nat.testBit_xor, Nat.testBit_shiftRight,
    testBit_255]
  have h1 : ¬ (8 - (length - (n - 1) * 8) + s < 8) := by omega
  simp [hs8, h1]

/-- With `bit_start = 0` the last write of the injection loop merges byte
`byte_start + i` with the final-byte mask. -/
theorem injectStep_eq_last (byte_start length n : Nat) (data : List Nat) (i vb : Nat)
    (hi : i = n - 1) :
    injectStep byte_start 0 length n data i vb =
      data.set (byte_start + i) ((data.getD (byte_start + i) 0 &&&
        (255 ^^^ (255 &&& (255 >>> (8 - (length - (n - 1) * 8)))))) |||
        (vb &&& (255 &&& (255 >>> (8 - (length - (n - 1) * 8)))))) := by
  subst hi
  by_cases h0 : n - 1 = 0 <;> simp [injectStep, h0]

/-- A single write of the byte-aligned injection loop leaves bit `j`
unchanged when `j` lies in another byte, or in the written byte beyond the
field's tail bits. -/
theorem injectStep_getBit (byte_start length n : Nat) (data : List Nat) (i vb j : Nat)
    (hj : j / 8 ≠ byte_start + i ∨ (i = n - 1 ∧ length - (n - 1) * 8 ≤ j % 8)) :
    getBit (injectStep byte_start 0 length n data i vb) j = getBit data j := by
  by_cases hne : j / 8 = byte_start + i
  · have hi : i = n - 1 ∧ length - (n - 1) * 8 ≤ j % 8 :=
      hj.resolve_left (not_not_intro hne)
    rw [injectStep_eq_last byte_start length n data i vb hi.1]
    by_cases hlt : byte_start + i < data.length
    · unfold getBit
      rw [hne, getD_set_self _ _ _ hlt]
      exact lastByte_testBit _ _ _ _ _ (Nat.mod_lt _ (by omega)) hi.2
    · rw [List.set_eq_of_length_le (by omega)]
  · unfold getBit
    simp only [injectStep]
    rw [getD_set_ne _ _ _ _ (Ne.symm hne)]

/-- The whole byte-aligned injection loop leaves bit `j` unchanged when `j`
lies before the written span, after it, or in the tail of the last byte
beyond the field. -/
theorem injectLoop_getBit_outside (byte_start length n j : Nat) :
    ∀ (vbs : List Nat) (i : Nat) (data : List Nat),
      i + vbs.length = n →
      (j / 8 < byte_start + i ∨
        (j / 8 = byte_start + (n - 1) ∧ length - (n - 1) * 8 ≤ j % 8) ∨
        byte_start + n ≤ j / 8) →
      getBit (injectLoop byte_start 0 length n data i vbs) j = getBit data j := by
  intro vbs
  induction vbs with
  | nil => intro i data _ _; rfl
  | cons vb rest ih =>
    intro i data hn hj
    have hstep : getBit (injectStep byte_start 0 length n data i vb) j = getBit data j := by
      apply injectStep_getBit
      rcases hj with h | ⟨h1, h2⟩ | h
      · exact Or.inl (by omega)
      · by_cases hin : i = n - 1
        · exact Or.inr ⟨hin, h2⟩
        · simp at hn
          exact Or.inl (by omega)
      · simp at hn
        exact Or.inl (by omega)
    have hrest := ih (i + 1) (injectStep byte_start 0 length n data i vb)
      (by simp at hn ⊢; omega)
      (by rcases hj with h | h | h
          · exact Or.inl (by omega)
          · exact Or.inr (Or.inl h)
          · exact Or.inr (Or.inr h))
    calc getBit (injectLoop byte_start 0 length n data i (vb :: rest)) j
        = getBit (injectLoop byte_start 0 length n
            (injectStep byte_start 0 length n data i vb) (i + 1) rest) j := rfl
      _ = getBit (injectStep byte_start 0 length n data i vb) j := hrest
      _ = getBit data j := hstep

/-- C6 (counterexample): injection does not preserve all bits outside the
target field: writing value 0 into the 4-bit field at `start_bit = 4` of an
all-ones buffer clears bit 0, which lies below `start_bit` — the first-byte
mask `0xFF >> (start_bit % 8)` covers the bits below the field instead of
the field itself. -/
theorem c6_counterexample :
    inject_signal (List.replicate 8 255) 0 4 4 .intel = .ok (240 :: List.replicate 7 255) ∧
    (0 : Nat) < 4 ∧
    getBit (240 :: List.replicate 7 255) 0 ≠ getBit (List.replicate 8 255) 0 :=
  ⟨rfl, by decide, by decide⟩

/-- C6 (amended): for byte-aligned fields (`start_bit = 8k`, any
`bit_length ≥ 1`, any byte order, any value accepted by the encoder),
`inject_signal` leaves every bit of the buffer outside the target field —
below `start_bit` and at or above `start_bit + bit_length` — equal to its
prior contents.  For unaligned fields this fails (see the counterexample). -/
theorem c6_aligned_preserves_outside (data : List Nat) (v : Int) (k L : Nat)
    (bo : ByteOrder) (out : List Nat) (hL1 : 1 ≤ L)
    (hok : inject_signal data v (8 * k) L bo = .ok out) :
    ∀ j, j < 8 * k ∨ 8 * k + L ≤ j → getBit out j = getBit data j := by
  intro j hj
  have e3 : 8 * k / 8 = k := by omega
  have e4 : 8 * k % 8 = 0 := by omega
  have ef : (((8 * k : Nat) : Int) + (L : Int) - 1).fdiv 8 =
      ((k + (L - 1) / 8 : Nat) : Int) := by
    rw [Int.fdiv_eq_ediv _ (by norm_num)]
    omega
  have en : (((k + (L - 1) / 8 : Nat) : Int) - ((k : Nat) : Int) + 1).toNat =
      (L - 1) / 8 + 1 := by omega
  simp only [inject_signal, e3, e4, ef, en] at hok
  by_cases hg1 : data.length < (8 * k + L + 7) / 8
  · rw [if_pos hg1] at hok
    exact absurd hok (by simp)
  rw [if_neg hg1] at hok
  by_cases hg2 : v < 0 ∨ (2 : Int) ^ (8 * ((L - 1) / 8 + 1)) ≤ v
  · rw [if_pos hg2] at hok
    exact absurd hok (by simp)
  rw [if_neg hg2] at hok
  injection hok with hok
  subst hok
  apply injectLoop_getBit_outside
  · cases bo <;> simp [toBytesBE, toBytesLE_length]
  · omega

/-- C6 (witness): injecting the 12-bit value `0xABC` at `start_bit = 8` of
an all-ones buffer: bit 7 (below the field) and bit 20 (above it) keep
their old values. -/
theorem c6_aligned_preserves_outside_witness :
    inject_signal (List.replicate 8 255) 0xABC (8 * 1) 12 .intel =
        .ok [255, 188, 250, 255, 255, 255, 255, 255] ∧
    getBit [255, 188, 250, 255, 255, 255, 255, 255] 7 = getBit (List.replicate 8 255) 7 ∧
    getBit [255, 188, 250, 255, 255, 255, 255, 255] 20 = getBit (List.replicate 8 255) 20 :=
  ⟨rfl,
    c6_aligned_preserves_outside (List.replicate 8 255) 0xABC 1 12 .intel
      [255, 188, 250, 255, 255, 255, 255, 255] (by decide) rfl 7 (Or.inl (by decide)),
    c6_aligned_preserves_outside (List.replicate 8 255) 0xABC 1 12 .intel
      [255, 188, 250, 255, 255, 255, 255, 255] (by decide) rfl 20 (Or.inr (by decide))⟩

/-- Masking the merged byte written by a byte-aligned single-byte injection
with the `length`-bit extraction mask recovers `v % 2^length`: the write mask
`255 &&& (255 >>> (8 - L))` is `2^L - 1`, the preserved old bits lie outside
it, and the value bits inside it survive. -/
theorem byte_merge_mask (old v L : Nat) (hL1 : 1 ≤ L) (hL8 : L ≤ 8) :
    ((old &&& (255 ^^^ (255 &&& (255 >>> (8 - L))))) |||
        (v &&& (255 &&& (255 >>> (8 - L))))) &&& ((1 <<< L) - 1) = v % 2 ^ L := by
  have hm : (255 : Nat) &&& (255 >>> (8 - L)) = 2 ^ L - 1 := by
    interval_cases L <;> decide
  have h255 : (255 : Nat) = 2 ^ 8 - 1 := by decide
  have hsh : (1 <<< L) - 1 = 2 ^ L - 1 := by
    rw [Nat.shiftLeft_eq, one_mul]
  rw [hm, hsh, h255]
  apply Nat.eq_of_testBit_eq
  intro i
  simp only [Nat.testBit_land, Nat.testBit_lor, Nat.testBit_xor,
    Nat.testBit_two_pow_sub_one, Nat.testBit_mod_two_pow]
  by_cases hiL : i < L
  · have hi8 : i < 8 := by omega
    simp [hiL, hi8]
  · simp [hiL]

/-- A byte-aligned field of at most 8 bits spans exactly one byte, and
`inject_signal` on it reduces to one merged write of byte `k`. -/
theorem inject_aligned_byte (k L v : Nat) (data : List Nat) (bo : ByteOrder)
    (hL1 : 1 ≤ L) (hL8 : L ≤ 8) (hv : v < 256) (hlen : k + 1 ≤ data.length) :
    inject_signal data (v : Int) (8 * k) L bo =
      .ok (data.set k ((data.getD k 0 &&& (255 ^^^ (255 &&& (255 >>> (8 - L))))) |||
        (v &&& (255 &&& (255 >>> (8 - L)))))) := by
  have e3 : 8 * k / 8 = k := by omega
  have e4 : 8 * k % 8 = 0 := by omega
  have ef : (((8 * k : Nat) : Int) + (L : Int) - 1).fdiv 8 = ((k : Nat) : Int) := by
    rw [Int.fdiv_eq_ediv _ (by norm_num)]
    omega
  have en : (((k : Nat) : Int) - ((k : Nat) : Int) + 1).toNat = 1 := by omega
  simp only [inject_signal, e3, e4, ef, en]
  rw [if_neg (by omega)]
  rw [if_neg (by push_neg; refine ⟨by omega, ?_⟩; simp; omega)]
  cases bo <;>
    simp [toBytesBE, toBytesLE, injectLoop, injectStep, Nat.mod_eq_of_lt hv,
      Nat.sub_self]

/-- Reading a byte-aligned field of at most 8 bits reduces to masking byte
`k` with the `length`-bit mask. -/
theorem extract_aligned_byte (k L : Nat) (data : List Nat) (bo : ByteOrder)
    (hL1 : 1 ≤ L) (hL8 : L ≤ 8) (hlen : k + 1 ≤ data.length) :
    extract_signal data (8 * k) L bo false =
      .ok (((data.getD k 0 &&& ((1 <<< L) - 1)) : Nat) : Int) := by
  have e2 : (8 * k + L - 1) / 8 = k := by omega
  have e3 : 8 * k / 8 = k := by omega
  have e4 : 8 * k % 8 = 0 := by omega
  have e5 : k + 1 - k = 1 := by omega
  have hk : k < data.length := by omega
  simp only [extract_signal, e2, e3, e4, e5]
  rw [if_neg (by omega)]
  cases bo <;> simp [fromBytesBE, fromBytesLE, drop_take_one data k hk]

/-- C2 (counterexample): the unsigned round-trip fails for an unaligned
field: encoding `v = 5` at `start_bit = 4`, `bit_length = 4` into an all-zero
buffer writes `(5 >> 4) & 0x0F = 0` into the wrong nibble, so decoding the
same field returns `0 ≠ 5 = 5 mod 2^4`; and a value of `300` in a one-byte
field is rejected by `int.to_bytes` instead of being encoded, so the
round-trip equation cannot even be formed for every value. -/
theorem c2_counterexample :
    (inject_signal (List.replicate 8 0) 5 4 4 .intel = .ok (List.replicate 8 0) ∧
      extract_signal (List.replicate 8 0) 4 4 .intel false = .ok 0 ∧
      (0 : Int) ≠ ((5 % 2 ^ 4 : Nat) : Int)) ∧
    inject_signal (List.replicate 8 0) 300 0 4 .intel = .error .valueOverflow :=
  ⟨⟨rfl, rfl, by decide⟩, rfl⟩

/-- C2 (amended): the encode/decode round-trip over the unsigned domain
holds for byte-aligned fields: for every `start_bit = 8k`, every
`1 ≤ bit_length ≤ 8` with `start_bit + bit_length ≤ 64`, either byte order,
every value `v < 256` (larger values make `int.to_bytes` raise instead of
truncating) and every buffer covering the field, decoding the injected field
returns `v mod 2^bit_length`.  For unaligned `start_bit` the round-trip
fails (see the counterexample). -/
theorem c2_roundtrip_aligned (k L v : Nat) (data : List Nat) (bo : ByteOrder)
    (hL1 : 1 ≤ L) (hL8 : L ≤ 8) (h64 : 8 * k + L ≤ 64) (hv : v < 256)
    (hlen : k + 1 ≤ data.length) :
    ∃ out, inject_signal data (v : Int) (8 * k) L bo = .ok out ∧
      extract_signal out (8 * k) L bo false = .ok ((v % 2 ^ L : Nat) : Int) := by
  refine ⟨_, inject_aligned_byte k L v data bo hL1 hL8 hv hlen, ?_⟩
  rw [extract_aligned_byte k L _ bo hL1 hL8 (by simpa using hlen)]
  rw [getD_set_self data k _ (by omega), byte_merge_mask (data.getD k 0) v L hL1 hL8]

/-- C2 (witness): the amended round-trip applied at `start_bit = 8`,
`bit_length = 4`, `v = 200` on a buffer of nines: decoding returns
`200 mod 16 = 8`. -/
theorem c2_roundtrip_aligned_witness :
    ∃ out, inject_signal [9, 9, 9, 9, 9, 9, 9, 9] ((200 : Nat) : Int) (8 * 1) 4 .intel = .ok out ∧
      extract_signal out (8 * 1) 4 .intel false = .ok ((200 % 2 ^ 4 : Nat) : Int) :=
  c2_roundtrip_aligned 1 4 200 [9, 9, 9, 9, 9, 9, 9, 9] .intel (by decide) (by decide)
    (by decide) (by decide) (by decide)

/-- C3: decoding is independent of the declared byte order: the Motorola path
reverses the covering bytes and reads them big-endian, which is exactly
reading the original bytes little-endian, so `extract_signal` returns the
same result for "Motorola" as for "Intel" on every input (in particular on
every input on which decoding succeeds). -/
theorem c3_byte_order_independent :
    (∀ l : List Nat, fromBytesBE l.reverse = fromBytesLE l) ∧
    ∀ (data : List Nat) (start_bit length : Nat) (sg : Bool),
      extract_signal data start_bit length .motorola sg =
        extract_signal data start_bit length .intel sg := by
  constructor
  · intro l
    simp [fromBytesBE]
  · intro data start_bit length sg
    simp [extract_signal, fromBytesBE]

/-- C1 (code bug): on the §8 example (Speed, 16-bit Intel unsigned, factor
0.1 on both sides, input at bit 0, output at bit 8), translating the frame
`{id: 0x100, data: [0x64, 0, ...]}` does not yield the specified
`{id: 0x200, data: [0x00, 0x64, 0x00, ...]}`: `translate_and_send` never
inverts the output scaling and encodes `int(scaled) = 10`, producing
`[0x00, 0x0A, 0x00, ...]`, while `process_can_message` never applies the
input scaling and encodes `int(raw / 0.1) = 1000`, producing
`[0x00, 0xE8, 0x03, ...]`.  Neither equals the specified payload. -/
theorem c1_translation_example_bug :
    translate_and_send 0x100 [0x64, 0, 0, 0, 0, 0, 0, 0]
        [("InMsg", ⟨0x100, [("Speed", ⟨0, 16, .intel, false, 1/10, 0⟩)]⟩)]
        [("OutMsg", ⟨0x200, [("Speed", ⟨8, 16, .intel, false, 1/10, 0⟩)]⟩)] =
      some (0x200, [0x00, 0x0A, 0x00, 0x00, 0x00, 0x00, 0x00, 0x00]) ∧
    process_can_message 0x100 [0x64, 0, 0, 0, 0, 0, 0, 0]
        [(0x100, ⟨0x100, [("Speed", ⟨0, 16, .intel, false, 1/10, 0⟩)]⟩)]
        [("OutMsg", ⟨0x200, [("Speed", ⟨8, 16, .intel, false, 1/10, 0⟩)]⟩)] =
      some (0x200, [0x00, 0xE8, 0x03, 0x00, 0x00, 0x00, 0x00, 0x00]) ∧
    ([0x00, 0x0A, 0x00, 0x00, 0x00, 0x00, 0x00, 0x00] : List Nat) ≠
      [0x00, 0x64, 0x00, 0x00, 0x00, 0x00, 0x00, 0x00] ∧
    ([0x00, 0xE8, 0x03, 0x00, 0x00, 0x00, 0x00, 0x00] : List Nat) ≠
      [0x00, 0x64, 0x00, 0x00, 0x00, 0x00, 0x00, 0x00] := by
  have h0 : (100 &&& 65535 : Nat) = 100 := by decide
  have h1 : pyInt ((100 : ℚ) * 10⁻¹) = 10 := by norm_num [pyInt, Int.tdiv]
  have h2 : pyInt ((100 : ℚ) * 10) = 1000 := by norm_num [pyInt, Int.tdiv]
  refine ⟨?_, ?_, by decide, by decide⟩
  · simp [translate_and_send, findInputConfig, findOutputBySignal, findOutputByAny,
      lookupSignal, tasSignalStep, extract_signal, fromBytesLE, fromBytesBE,
      apply_scale_and_offset, orInto, h0, h1]
    decide
  · simp [process_can_message, lookupById, processSignals, processSignal, injectOutputs,
      lookupSignal, extract_signal, fromBytesLE, fromBytesBE, h0, h2,
      inject_signal, injectLoop, injectStep, toBytesLE, toBytesBE]
    decide

/-- C4 (counterexample): a field with `start_bit + bit_length = 65 > 64`
does not fail on every payload of 8 or more bytes — on a 9-byte payload both
decoding and encoding succeed; and on an 8-byte payload the failure is the
plain insufficient-data error, there being no distinct `FieldOutOfRange`
error anywhere in the code. -/
theorem c4_counterexample :
    extract_signal (List.replicate 9 0) 60 5 .intel false = .ok 0 ∧
    inject_signal (List.replicate 9 0) 1 60 5 .intel = .ok (List.replicate 9 0) ∧
    extract_signal (List.replicate 8 0) 60 5 .intel false = .error .insufficientData :=
  ⟨rfl, rfl, rfl⟩

/-- C4 (amended): on a payload of exactly 8 bytes (a full CAN frame), any
field with `start_bit + bit_length > 64` makes both `extract_signal` and
`inject_signal` fail with the insufficient-data/insufficient-space
`ValueError` — the only error the code has for this situation — rather than
succeed or crash. -/
theorem c4_out_of_range_error (data : List Nat) (v : Int) (start_bit length : Nat)
    (bo : ByteOrder) (sg : Bool) (hlen : data.length = 8)
    (hrange : 64 < start_bit + length) :
    extract_signal data start_bit length bo sg = .error .insufficientData ∧
    inject_signal data v start_bit length bo = .error .insufficientData := by
  constructor
  · unfold extract_signal
    rw [if_pos (by omega)]
  · unfold inject_signal
    rw [if_pos (by omega)]

/-- C4 (witness): the amended theorem applied at `start_bit = 60`,
`bit_length = 5` on an all-zero 8-byte payload. -/
theorem c4_out_of_range_error_witness :
    extract_signal (List.replicate 8 0) 60 5 .intel false = .error .insufficientData ∧
    inject_signal (List.replicate 8 0) 1 60 5 .intel = .error .insufficientData :=
  c4_out_of_range_error (List.replicate 8 0) 1 60 5 .intel false (by decide) (by decide)

/-- C5 (counterexample): encoding a value wider than `bit_length` does not
always succeed with silent truncation: value 256 in a 4-bit field at bit 0
needs more than the field's one covering byte, so `int.to_bytes` raises
`OverflowError` (as it does for any negative value) instead of truncating. -/
theorem c5_counterexample :
    inject_signal (List.replicate 8 0) 256 0 4 .intel = .error .valueOverflow ∧
    inject_signal (List.replicate 8 0) (-1) 0 4 .intel = .error .valueOverflow :=
  ⟨rfl, rfl⟩

/-- C5 (amended): with a large-enough buffer, encoding succeeds exactly for
the values representable in the field's covering bytes: `inject_signal`
returns a buffer (truncating the value to the field via its byte masks, even
when the value is wider than `bit_length`) iff `0 ≤ v < 2^(8n)` where `n` is
the number of bytes the field spans; outside that range `int.to_bytes`
raises instead of truncating. -/
theorem c5_inject_ok_iff_range (data : List Nat) (v : Int) (start_bit length : Nat)
    (bo : ByteOrder) (hlen : (start_bit + length + 7) / 8 ≤ data.length) :
    (∃ out, inject_signal data v start_bit length bo = .ok out) ↔
      0 ≤ v ∧ v < (2 : Int) ^
        (8 * (((start_bit : Int) + (length : Int) - 1).fdiv 8 -
          ((start_bit / 8 : Nat) : Int) + 1).toNat) := by
  unfold inject_signal
  rw [if_neg (by omega)]
  by_cases hv : v < 0 ∨ (2 : Int) ^
      (8 * (((start_bit : Int) + (length : Int) - 1).fdiv 8 -
        ((start_bit / 8 : Nat) : Int) + 1).toNat) ≤ v
  · rw [if_pos hv]
    simp only [reduceCtorEq, exists_false, false_iff]
    omega
  · rw [if_neg hv]
    simp only [Except.ok.injEq, exists_eq', true_iff]
    omega

/-- C5 (witness): the amended theorem applied at `v = 255` in a 4-bit field
at bit 0 of an all-zero 8-byte buffer: wider than 4 bits, but within the one
covering byte, so encoding succeeds. -/
theorem c5_inject_ok_iff_range_witness :
    (0 + 4 + 7) / 8 ≤ (List.replicate 8 (0 : Nat)).length ∧
    ∃ out, inject_signal (List.replicate 8 0) 255 0 4 .intel = .ok out :=
  ⟨by decide, (c5_inject_ok_iff_range (List.replicate 8 0) 255 0 4 .intel (by decide)).mpr
    (by decide)⟩

/-- C7: `extract_signal` fails with the insufficient-data error exactly when
the payload has fewer bytes than `⌈(start_bit + bit_length) / 8⌉`, the bytes
needed to cover the field. -/
theorem c7_insufficient_data_iff (data : List Nat) (start_bit length : Nat)
    (bo : ByteOrder) (sg : Bool) :
    extract_signal data start_bit length bo sg = .error .insufficientData ↔
      data.length < (start_bit + length + 7) / 8 := by
  unfold extract_signal
  by_cases h : data.length < (start_bit + length + 7) / 8
  · rw [if_pos h]
    simp [h]
  · rw [if_neg h]
    simp only [h, iff_false]
    split
    · split
      · simp
      · split <;> simp
    · simp

/-- C7 (witness): the spec's particular case — a 32-bit field starting at
bit 56 cannot be decoded from a 4-byte payload. -/
theorem c7_insufficient_data_iff_witness :
    extract_signal ([0, 0, 0, 0] : List Nat) 56 32 .intel false = .error .insufficientData :=
  (c7_insufficient_data_iff [0, 0, 0, 0] 56 32 .intel false).mpr (by decide)

/-- A signal whose extraction fails contributes nothing: the per-signal
`try`/`except` block of `process_can_message` returns the state unchanged. -/
theorem processSignal_skip (output_dbc : Database) (data : List Nat) (st : PState)
    (nm : String) (cfg : SignalDef) (e : CodecError)
    (hfail : extract_signal data cfg.start_bit cfg.length cfg.byte_order cfg.is_signed =
      .error e) :
    processSignal output_dbc data st (nm, cfg) = st := by
  simp [processSignal, hfail]

/-- Removing a signal whose extraction fails from anywhere in the signal
list does not change the result of the per-signal loop. -/
theorem processSignals_skip (output_dbc : Database) (data : List Nat)
    (nm : String) (cfg : SignalDef) (e : CodecError)
    (hfail : extract_signal data cfg.start_bit cfg.length cfg.byte_order cfg.is_signed =
      .error e) :
    ∀ (pre post : List (String × SignalDef)) (st : PState),
      processSignals output_dbc data st (pre ++ (nm, cfg) :: post) =
        processSignals output_dbc data st (pre ++ post) := by
  intro pre
  induction pre with
  | nil =>
    intro post st
    simp [processSignals, processSignal_skip output_dbc data st nm cfg e hfail]
  | cons p rest ih =>
    intro post st
    simp only [List.cons_append, processSignals]
    exact ih post _

/-- In `translate_and_send`'s per-signal loop, a signal whose extraction
fails contributes nothing: the `except` handler turns the step into the
identity on the translated buffer. -/
theorem tasSignalStep_skip (output_db : Database) (frame_data td : List Nat)
    (nm : String) (cfg : SignalDef) (e : CodecError)
    (hfail : extract_signal frame_data cfg.start_bit cfg.length cfg.byte_order cfg.is_signed =
      .error e) :
    tasSignalStep output_db frame_data td (nm, cfg) = td := by
  simp only [tasSignalStep, hfail]
  split
  · rfl
  · split
    · rfl
    · rfl

/-- A signal whose extraction fails can be dropped from anywhere in
`translate_and_send`'s payload fold without changing the result. -/
theorem tas_foldl_skip (output_db : Database) (frame_data : List Nat)
    (nm : String) (cfg : SignalDef) (e : CodecError)
    (hfail : extract_signal frame_data cfg.start_bit cfg.length cfg.byte_order cfg.is_signed =
      .error e) :
    ∀ (pre post : List (String × SignalDef)) (td : List Nat),
      List.foldl (tasSignalStep output_db frame_data) td (pre ++ (nm, cfg) :: post) =
        List.foldl (tasSignalStep output_db frame_data) td (pre ++ post) := by
  intro pre
  induction pre with
  | nil =>
    intro post td
    simp [List.foldl_cons, tasSignalStep_skip output_db frame_data td nm cfg e hfail]
  | cons p rest ih =>
    intro post td
    simp only [List.cons_append, List.foldl_cons]
    exact ih post _

/-- C8: a single signal's extraction failure never aborts the message, in
either pipeline.  For `process_can_message`, translation proceeds exactly as
if the failing signal were absent.  For `translate_and_send`, the failing
signal's step is skipped and the payload fold continues with the remaining
signals as if it were absent; the message is still sent, because the final
output-id loop inspects only signal names, never extraction results. -/
theorem c8_failed_signal_skipped (can_id : Nat) (data : List Nat)
    (input_dbc input_dbc2 : List (Nat × MessageDef)) (output_dbc : Database)
    (msg msg2 : MessageDef) (tin : Database) (imc : MessageDef)
    (pre post : List (String × SignalDef))
    (nm : String) (cfg : SignalDef) (e : CodecError)
    (h1 : lookupById input_dbc can_id = some msg)
    (h2 : lookupById input_dbc2 can_id = some msg2)
    (h3 : msg.signals = pre ++ (nm, cfg) :: post)
    (h4 : msg2.signals = pre ++ post)
    (hfind : findInputConfig tin can_id = some imc)
    (hsig : imc.signals = pre ++ (nm, cfg) :: post)
    (hfail : extract_signal data cfg.start_bit cfg.length cfg.byte_order cfg.is_signed =
      .error e) :
    (process_can_message can_id data input_dbc output_dbc =
      process_can_message can_id data input_dbc2 output_dbc) ∧
    (∀ td : List Nat,
      List.foldl (tasSignalStep output_dbc data) td (pre ++ (nm, cfg) :: post) =
        List.foldl (tasSignalStep output_dbc data) td (pre ++ post)) ∧
    translate_and_send can_id data tin output_dbc =
      (match findOutputByAny (pre ++ (nm, cfg) :: post) output_dbc with
        | none => none
        | some translated_id =>
          if translated_id = 0 then none
          else some (translated_id,
            (List.foldl (tasSignalStep output_dbc data)
              (List.replicate 8 0) (pre ++ post)).take 8)) := by
  refine ⟨?_, ?_, ?_⟩
  · simp only [process_can_message, h1, h2, h3, h4]
    rw [processSignals_skip output_dbc data nm cfg e hfail]
  · intro td
    exact tas_foldl_skip output_dbc data nm cfg e hfail pre post td
  · simp only [translate_and_send, hfind, hsig]
    rw [tas_foldl_skip output_dbc data nm cfg e hfail pre post]

/-- C8 (witness): a 16-bit signal "A" cannot be extracted from the 1-byte
frame `[3]`; in both pipelines the message is translated the same with or
without it, and the 8-bit signal "B" is still processed. -/
theorem c8_failed_signal_skipped_witness :
    (process_can_message 1 [3]
        [(1, ⟨1, [("A", ⟨0, 16, .intel, false, 1, 0⟩), ("B", ⟨0, 8, .intel, false, 1, 0⟩)]⟩)]
        [("M", ⟨5, [("B", ⟨0, 8, .intel, false, 1, 0⟩)]⟩)] =
      process_can_message 1 [3]
        [(1, ⟨1, [("B", ⟨0, 8, .intel, false, 1, 0⟩)]⟩)]
        [("M", ⟨5, [("B", ⟨0, 8, .intel, false, 1, 0⟩)]⟩)]) ∧
    (List.foldl (tasSignalStep [("M", ⟨5, [("B", ⟨0, 8, .intel, false, 1, 0⟩)]⟩)] [3])
        (List.replicate 8 0)
        [("A", ⟨0, 16, .intel, false, 1, 0⟩), ("B", ⟨0, 8, .intel, false, 1, 0⟩)] =
      List.foldl (tasSignalStep [("M", ⟨5, [("B", ⟨0, 8, .intel, false, 1, 0⟩)]⟩)] [3])
        (List.replicate 8 0) [("B", ⟨0, 8, .intel, false, 1, 0⟩)]) ∧
    translate_and_send 1 [3]
        [("In", ⟨1, [("A", ⟨0, 16, .intel, false, 1, 0⟩), ("B", ⟨0, 8, .intel, false, 1, 0⟩)]⟩)]
        [("M", ⟨5, [("B", ⟨0, 8, .intel, false, 1, 0⟩)]⟩)] =
      (match findOutputByAny
          [("A", ⟨0, 16, .intel, false, 1, 0⟩), ("B", ⟨0, 8, .intel, false, 1, 0⟩)]
          [("M", ⟨5, [("B", ⟨0, 8, .intel, false, 1, 0⟩)]⟩)] with
        | none => none
        | some translated_id =>
          if translated_id = 0 then none
          else some (translated_id,
            (List.foldl (tasSignalStep [("M", ⟨5, [("B", ⟨0, 8, .intel, false, 1, 0⟩)]⟩)] [3])
              (List.replicate 8 0) [("B", ⟨0, 8, .intel, false, 1, 0⟩)]).take 8)) := by
  have h := c8_failed_signal_skipped 1 [3]
    [(1, ⟨1, [("A", ⟨0, 16, .intel, false, 1, 0⟩), ("B", ⟨0, 8, .intel, false, 1, 0⟩)]⟩)]
    [(1, ⟨1, [("B", ⟨0, 8, .intel, false, 1, 0⟩)]⟩)]
    [("M", ⟨5, [("B", ⟨0, 8, .intel, false, 1, 0⟩)]⟩)]
    ⟨1, [("A", ⟨0, 16, .intel, false, 1, 0⟩), ("B", ⟨0, 8, .intel, false, 1, 0⟩)]⟩
    ⟨1, [("B", ⟨0, 8, .intel, false, 1, 0⟩)]⟩
    [("In", ⟨1, [("A", ⟨0, 16, .intel, false, 1, 0⟩), ("B", ⟨0, 8, .intel, false, 1, 0⟩)]⟩)]
    ⟨1, [("A", ⟨0, 16, .intel, false, 1, 0⟩), ("B", ⟨0, 8, .intel, false, 1, 0⟩)]⟩
    [] [("B", ⟨0, 8, .intel, false, 1, 0⟩)] "A" ⟨0, 16, .intel, false, 1, 0⟩
    .insufficientData rfl rfl rfl rfl rfl rfl rfl
  exact ⟨h.1, h.2.1 (List.replicate 8 0), h.2.2⟩

/-- The injection write loop never changes the buffer's length. -/
theorem injectLoop_length (byte_start bit_start length n : Nat) :
    ∀ (vbs : List Nat) (i : Nat) (data : List Nat),
      (injectLoop byte_start bit_start length n data i vbs).length = data.length := by
  intro vbs
  induction vbs with
  | nil => intro i data; rfl
  | cons vb rest ih =>
    intro i data
    calc (injectLoop byte_start bit_start length n data i (vb :: rest)).length
        = (injectStep byte_start bit_start length n data i vb).length := ih _ _
      _ = data.length := by simp [injectStep]

/-- A successful `inject_signal` returns a buffer of the input's length. -/
theorem inject_signal_length (data : List Nat) (v : Int) (sb L : Nat) (bo : ByteOrder)
    (out : List Nat) (hok : inject_signal data v sb L bo = .ok out) :
    out.length = data.length := by
  simp only [inject_signal] at hok
  by_cases h1 : data.length < (sb + L + 7) / 8
  · rw [if_pos h1] at hok
    exact absurd hok (by simp)
  rw [if_neg h1] at hok
  by_cases h2 : v < 0 ∨ (2 : Int) ^
      (8 * (((sb : Int) + (L : Int) - 1).fdiv 8 - ((sb / 8 : Nat) : Int) + 1).toNat) ≤ v
  · rw [if_pos h2] at hok
    exact absurd hok (by simp)
  rw [if_neg h2] at hok
  injection hok with hok
  subst hok
  exact injectLoop_length _ _ _ _ _ _ _

/-- The inner output-database loop preserves the output buffer's length. -/
theorem injectOutputs_length (extracted : Int) (signal_name : String) :
    ∀ (odb : Database) (st : PState),
      (injectOutputs extracted signal_name odb st).output_data.length =
        st.output_data.length := by
  intro odb
  induction odb with
  | nil => intro st; rfl
  | cons p rest ih =>
    obtain ⟨a, out_cfg⟩ := p
    intro st
    simp only [injectOutputs]
    split
    · exact ih st
    · split
      · rfl
      · split
        · rfl
        · next d hinj =>
          calc (injectOutputs extracted signal_name rest
                ⟨d, some out_cfg.id⟩).output_data.length
              = d.length := ih _
            _ = st.output_data.length := inject_signal_length _ _ _ _ _ _ hinj

/-- One iteration of the per-signal loop preserves the buffer's length. -/
theorem processSignal_length (output_dbc : Database) (data : List Nat) (st : PState)
    (sig : String × SignalDef) :
    (processSignal output_dbc data st sig).output_data.length =
      st.output_data.length := by
  unfold processSignal
  cases extract_signal data sig.2.start_bit sig.2.length sig.2.byte_order sig.2.is_signed with
  | error e => rfl
  | ok v => exact injectOutputs_length v sig.1 output_dbc st

/-- The whole per-signal loop preserves the buffer's length. -/
theorem processSignals_length (output_dbc : Database) (data : List Nat) :
    ∀ (sigs : List (String × SignalDef)) (st : PState),
      (processSignals output_dbc data st sigs).output_data.length =
        st.output_data.length := by
  intro sigs
  induction sigs with
  | nil => intro st; rfl
  | cons sig rest ih =>
    intro st
    calc (processSignals output_dbc data
          (processSignal output_dbc data st sig) rest).output_data.length
        = (processSignal output_dbc data st sig).output_data.length := ih _
      _ = st.output_data.length := processSignal_length output_dbc data st sig

/-- The OR-injection loop of `translate_and_send` never changes the
buffer's length. -/
theorem orInto_length (byte_start packed : Nat) :
    ∀ (rem i : Nat) (td : List Nat), (orInto byte_start packed i rem td).length = td.length := by
  intro rem
  induction rem with
  | zero => intro i td; rfl
  | succ m ih =>
    intro i td
    simp only [orInto]
    rw [ih]
    split <;> simp

/-- One iteration of `translate_and_send`'s per-signal loop preserves the
buffer's length. -/
theorem tasSignalStep_length (output_db : Database) (frame_data td : List Nat)
    (sig : String × SignalDef) :
    (tasSignalStep output_db frame_data td sig).length = td.length := by
  unfold tasSignalStep
  split
  · rfl
  · split
    · rfl
    · split
      · rfl
      · exact orInto_length _ _ _ _ _

/-- The whole payload fold of `translate_and_send` preserves the buffer's
length. -/
theorem tas_foldl_length (output_db : Database) (frame_data : List Nat) :
    ∀ (sigs : List (String × SignalDef)) (td : List Nat),
      (List.foldl (tasSignalStep output_db frame_data) td sigs).length = td.length := by
  intro sigs
  induction sigs with
  | nil => intro td; rfl
  | cons sig rest ih =>
    intro td
    rw [List.foldl_cons, ih, tasSignalStep_length]

/-- C9 (counterexample): the output payload is not sized to the output
message's declared or computed byte length: for an output message whose only
signal is 8 bits at bit 0 (minimum covering byte count 1, no declared
length anywhere in the code), translation still produces the fixed 8-byte
`bytearray(8)` buffer. -/
theorem c9_counterexample :
    process_can_message 1 [7] [(1, ⟨1, [("S", ⟨0, 8, .intel, false, 1, 0⟩)]⟩)]
        [("M", ⟨5, [("S", ⟨0, 8, .intel, false, 1, 0⟩)]⟩)] =
      some (5, [7, 0, 0, 0, 0, 0, 0, 0]) ∧
    translate_and_send 1 [7] [("In", ⟨1, [("S", ⟨0, 8, .intel, false, 1, 0⟩)]⟩)]
        [("M", ⟨5, [("S", ⟨0, 8, .intel, false, 1, 0⟩)]⟩)] =
      some (5, [7, 0, 0, 0, 0, 0, 0, 0]) ∧
    specMinCoverBytes ⟨5, [("S", ⟨0, 8, .intel, false, 1, 0⟩)]⟩ = 1 ∧ (8 : Nat) ≠ 1 := by
  have h0 : (7 &&& 255 : Nat) = 7 := by decide
  have hp : pyInt (7 : ℚ) = 7 := by norm_num [pyInt, Int.tdiv]
  refine ⟨?_, ?_, by decide, by decide⟩
  · simp [process_can_message, lookupById, processSignals, processSignal, injectOutputs,
      lookupSignal, extract_signal, fromBytesLE, fromBytesBE, h0, hp,
      inject_signal, injectLoop, injectStep, toBytesLE, toBytesBE]
  · simp [translate_and_send, findInputConfig, findOutputBySignal, findOutputByAny,
      lookupSignal, tasSignalStep, extract_signal, fromBytesLE, fromBytesBE,
      apply_scale_and_offset, orInto, h0, hp]

/-- C9 (amended): whenever translation produces an output — in either
pipeline — the payload is the fixed zero-initialized 8-byte buffer
(`bytearray(8)`) into which signals were injected: its length is always 8,
regardless of the output message's declared byte length or the bytes its
signals cover.  (`translate_and_send` sends `translated_data[:8]`, which is
all of its 8-byte buffer.) -/
theorem c9_payload_always_eight :
    (∀ (can_id : Nat) (data : List Nat) (input_dbc : List (Nat × MessageDef))
        (output_dbc : Database) (i : Nat) (d : List Nat),
      process_can_message can_id data input_dbc output_dbc = some (i, d) →
        d.length = 8) ∧
    ∀ (mid : Nat) (mdata : List Nat) (input_db output_db : Database) (i : Nat)
        (d : List Nat),
      translate_and_send mid mdata input_db output_db = some (i, d) → d.length = 8 := by
  constructor
  · intro can_id data input_dbc output_dbc i d h
    simp only [process_can_message] at h
    split at h
    · exact absurd h (by simp)
    · split at h
      · exact absurd h (by simp)
      · simp only [Option.some.injEq, Prod.mk.injEq] at h
        rw [← h.2, processSignals_length]
        rfl
  · intro mid mdata input_db output_db i d h
    simp only [translate_and_send] at h
    split at h
    · exact absurd h (by simp)
    · split at h
      · exact absurd h (by simp)
      · split at h
        · exact absurd h (by simp)
        · simp only [Option.some.injEq, Prod.mk.injEq] at h
          rw [← h.2, List.length_take, tas_foldl_length]
          rfl

/-- C9 (witness): the amended theorem applied to concrete translations —
`process_can_message` on frame `[7]` produces the 8-byte payload
`[7, 0, ...]`, and `translate_and_send` on frame `[9]` produces the 8-byte
payload `[9, 0, ...]`. -/
theorem c9_payload_always_eight_witness :
    ([7, 0, 0, 0, 0, 0, 0, 0] : List Nat).length = 8 ∧
    ([9, 0, 0, 0, 0, 0, 0, 0] : List Nat).length = 8 :=
  ⟨c9_payload_always_eight.1 1 [7] [(1, ⟨1, [("S", ⟨0, 8, .intel, false, 1, 0⟩)]⟩)]
    [("M", ⟨5, [("S", ⟨0, 8, .intel, false, 1, 0⟩)]⟩)] 5 [7, 0, 0, 0, 0, 0, 0, 0]
    (by
      have h0 : (7 &&& 255 : Nat) = 7 := by decide
      have hp : pyInt (7 : ℚ) = 7 := by norm_num [pyInt, Int.tdiv]
      simp [process_can_message, lookupById, processSignals, processSignal, injectOutputs,
        lookupSignal, extract_signal, fromBytesLE, fromBytesBE, h0, hp,
        inject_signal, injectLoop, injectStep, toBytesLE, toBytesBE]),
   c9_payload_always_eight.2 1 [9] [("In", ⟨1, [("S", ⟨0, 8, .intel, false, 1, 0⟩)]⟩)]
    [("M", ⟨5, [("S", ⟨0, 8, .intel, false, 1, 0⟩)]⟩)] 5 [9, 0, 0, 0, 0, 0, 0, 0]
    (by
      have h0 : (9 &&& 255 : Nat) = 9 := by decide
      have hp : pyInt (9 : ℚ) = 9 := by norm_num [pyInt, Int.tdiv]
      simp [translate_and_send, findInputConfig, findOutputBySignal, findOutputByAny,
        lookupSignal, tasSignalStep, extract_signal, fromBytesLE, fromBytesBE,
        apply_scale_and_offset, orInto, h0, hp])⟩

/-- C10: translation is deterministic — with equal frame, equal databases,
both translation pipelines produce equal results (the same output id and
payload, or the same "no output"), run after run.  In this embedding both
pipelines are pure functions of their arguments: the program's only
non-determinism (bus I/O and printing) is outside them. -/
theorem c10_deterministic (can_id can_id' : Nat) (data data' : List Nat)
    (input_dbc input_dbc' : List (Nat × MessageDef))
    (input_db input_db' output_db output_db' : Database)
    (h1 : can_id = can_id') (h2 : data = data') (h3 : input_dbc = input_dbc')
    (h4 : input_db = input_db') (h5 : output_db = output_db') :
    process_can_message can_id data input_dbc output_db =
      process_can_message can_id' data' input_dbc' output_db' ∧
    translate_and_send can_id data input_db output_db =
      translate_and_send can_id' data' input_db' output_db' := by
  subst h1 h2 h3 h4 h5
  exact ⟨rfl, rfl⟩

/-- C10 (witness): determinism applied to two runs on the §8 example frame
and databases. -/
theorem c10_deterministic_witness :
    process_can_message 0x100 [0x64, 0, 0, 0, 0, 0, 0, 0]
        [(0x100, ⟨0x100, [("Speed", ⟨0, 16, .intel, false, 1/10, 0⟩)]⟩)]
        [("OutMsg", ⟨0x200, [("Speed", ⟨8, 16, .intel, false, 1/10, 0⟩)]⟩)] =
      process_can_message 0x100 [0x64, 0, 0, 0, 0, 0, 0, 0]
        [(0x100, ⟨0x100, [("Speed", ⟨0, 16, .intel, false, 1/10, 0⟩)]⟩)]
        [("OutMsg", ⟨0x200, [("Speed", ⟨8, 16, .intel, false, 1/10, 0⟩)]⟩)] ∧
    translate_and_send 0x100 [0x64, 0, 0, 0, 0, 0, 0, 0]
        [("InMsg", ⟨0x100, [("Speed", ⟨0, 16, .intel, false, 1/10, 0⟩)]⟩)]
        [("OutMsg", ⟨0x200, [("Speed", ⟨8, 16, .intel, false, 1/10, 0⟩)]⟩)] =
      translate_and_send 0x100 [0x64, 0, 0, 0, 0, 0, 0, 0]
        [("InMsg", ⟨0x100, [("Speed", ⟨0, 16, .intel, false, 1/10, 0⟩)]⟩)]
        [("OutMsg", ⟨0x200, [("Speed", ⟨8, 16, .intel, false, 1/10, 0⟩)]⟩)] :=
  c10_deterministic 0x100 0x100 [0x64, 0, 0, 0, 0, 0, 0, 0] [0x64, 0, 0, 0, 0, 0, 0, 0]
    [(0x100, ⟨0x100, [("Speed", ⟨0, 16, .intel, false, 1/10, 0⟩)]⟩)]
    [(0x100, ⟨0x100, [("Speed", ⟨0, 16, .intel, false, 1/10, 0⟩)]⟩)]
    [("InMsg", ⟨0x100, [("Speed", ⟨0, 16, .intel, false, 1/10, 0⟩)]⟩)]
    [("InMsg", ⟨0x100, [("Speed", ⟨0, 16, .intel, false, 1/10, 0⟩)]⟩)]
    [("OutMsg", ⟨0x200, [("Speed", ⟨8, 16, .intel, false, 1/10, 0⟩)]⟩)]
    [("OutMsg", ⟨0x200, [("Speed", ⟨8, 16, .intel, false, 1/10, 0⟩)]⟩)]
    rfl rfl rfl rfl rfl

end CanBus
